import Mathlib

/-!
The clean-arch-project user use case, its validation service and its repository.

A shallow embedding of

* `internal/domain/entity/user.go` (`User`, `NewUser`, `User.Update`, `User.IsValid`),
* `internal/domain/service/user_service.go` (`ValidateUser`, `isValidEmail`, `SanitizeName`),
* `internal/usecase/user_usecase.go` (`CreateUser`, `GetUserByID`, `UpdateUser`,
  `DeleteUser`, `GetAllUsers`),
* `infrastructure/repository/user_repository_impl.go` (the SQL repository).

Modelling conventions.

* A Go `string` is a Lean `String`, read as its sequence of code points (valid UTF-8).
* A Go `error` is `Option GoError`: `none` is `nil`, `some e` a non-nil error with message
  `e.msg`.  A `*entity.User` result is `Option User`, `none` being the nil pointer.  Records
  are values: a repository hands out fresh copies, as the SQL implementation does.
* `time.Time` is an integer instant.  `time.Now()` and the random source behind `uuid.New()`
  are ambient; they live in the `World` as the functions `now` and `rand` together with the
  number of reads made so far.
* The use case is written against the interface `repository.UserRepository`; its behaviour is
  a parameter: every method takes the repository state and returns its results together with
  the next state.  The `World` also records the sequence of repository calls made (`calls`),
  which is how "calls" and "does not call" are stated.
-/

namespace CleanArch

/-! ## Library functions used by the code -/

/-- A Go error value, identified by its message. -/
structure GoError where
  msg : String
deriving DecidableEq, Repr

/-- Go `errors.New`. -/
def errors.New (text : String) : GoError := ⟨text⟩

/-- An instant of `time.Time`. -/
abbrev Time := Int

/-- A `uuid.UUID`: sixteen bytes. -/
abbrev UUID := List Nat

/-- The value `uuid.Nil`: sixteen zero bytes. -/
def uuid.Nil : UUID := List.replicate 16 0

/-- Go `unicode.IsSpace`: the Latin-1 cases of its switch, then the `White_Space` table. -/
def unicode.IsSpace (r : Char) : Bool :=
  let n := r.toNat
  if n ≤ 0xFF then
    n = 0x09 || n = 0x0A || n = 0x0B || n = 0x0C || n = 0x0D || n = 0x20 || n = 0x85 || n = 0xA0
  else
    n = 0x1680 || (0x2000 ≤ n && n ≤ 0x200A) || n = 0x2028 || n = 0x2029 || n = 0x202F
      || n = 0x205F || n = 0x3000

/-- Go `strings.TrimSpace`: the string without its leading and trailing white space. -/
def strings.TrimSpace (s : String) : String :=
  ⟨((s.data.dropWhile unicode.IsSpace).reverse.dropWhile unicode.IsSpace).reverse⟩

/-- Whether `p` starts the list `l` (Go `strings.HasPrefix` on code points). -/
def startsWith : List Char → List Char → Bool
  | _, [] => true
  | [], _ :: _ => false
  | c :: cs, d :: ds => c = d && startsWith cs ds

/-- Whether `sub` occurs in `l` at some position. -/
def occursIn (sub : List Char) : List Char → Bool
  | [] => startsWith [] sub
  | c :: cs => startsWith (c :: cs) sub || occursIn sub cs

/-- Go `strings.Contains`. -/
def strings.Contains (s substr : String) : Bool := occursIn substr.data s.data

/-! ## The ambient world: repository state, call trace, clock and random source -/

/-- The `entity.User` record. -/
structure entity.User where
  ID : UUID
  Email : String
  Name : String
  CreatedAt : Time
  UpdatedAt : Time
deriving DecidableEq, Repr

open entity (User)

/-- A call of one method of `repository.UserRepository`, with its arguments. -/
inductive Call where
  | Create (user : User)
  | GetByID (id : UUID)
  | GetByEmail (email : String)
  | Update (user : User)
  | Delete (id : UUID)
  | GetAll
deriving DecidableEq, Repr

/-- Everything outside the use case: the repository state `store`, the repository calls made
so far (oldest first), the clock (`now k` is what the `k`-th call of `time.Now()` returns,
`ticks` the number of calls made) and the random byte source read by `uuid.New()` (`rand k`
is its `k`-th byte, `drawn` the number of bytes read). -/
structure World (σ : Type) where
  store : σ
  calls : List Call
  now : Nat → Time
  ticks : Nat
  rand : Nat → Nat
  drawn : Nat

/-- One repository call: the method `f` runs on the store and the call is recorded. -/
def World.exec {σ α : Type} (w : World σ) (c : Call) (f : σ → α × σ) : α × World σ :=
  ((f w.store).1, { w with store := (f w.store).2, calls := w.calls ++ [c] })

/-- Go `time.Now()`: the next reading of the clock. -/
def time.Now {σ : Type} (w : World σ) : Time × World σ :=
  (w.now w.ticks, { w with ticks := w.ticks + 1 })

/-- The function `uuid.New()` of github.com/google/uuid: sixteen random bytes, then the
version (4) and variant (10) bits are stamped on bytes 6 and 8. -/
def uuid.New {σ : Type} (w : World σ) : UUID × World σ :=
  let b := (List.range 16).map (fun i => w.rand (w.drawn + i) % 256)
  let b := b.set 6 ((b.getD 6 0 &&& 0x0f) ||| 0x40)
  let b := b.set 8 ((b.getD 8 0 &&& 0x3f) ||| 0x80)
  (b, { w with drawn := w.drawn + 16 })

/-! ## internal/domain/entity/user.go -/

/-- The constructor `entity.NewUser`: the fields are evaluated in order, so the identity is
drawn first and the clock is read twice. -/
def entity.NewUser {σ : Type} (w : World σ) (email name : String) : User × World σ :=
  let r0 := uuid.New w
  let r1 := time.Now r0.2
  let r2 := time.Now r1.2
  ({ ID := r0.1, Email := email, Name := name, CreatedAt := r1.1, UpdatedAt := r2.1 }, r2.2)

/-- The method `User.Update`: sets the name and refreshes `UpdatedAt` from the clock. -/
def entity.User.Update {σ : Type} (u : User) (w : World σ) (name : String) : User × World σ :=
  let r := time.Now w
  ({ u with Name := name, UpdatedAt := r.1 }, r.2)

/-- The method `User.IsValid`. -/
def entity.User.IsValid (u : User) : Bool :=
  u.Email != "" && u.Name != ""

/-! ## internal/domain/service/user_service.go -/

/-- The stateless `service.UserService`. -/
structure service.UserService where
deriving Repr

open service (UserService)

/-- The constructor `service.NewUserService`. -/
def service.NewUserService : UserService := {}

/-- The method `UserService.isValidEmail`. -/
def service.UserService.isValidEmail (_s : UserService) (email : String) : Bool :=
  strings.Contains email "@" && strings.Contains email "."

/-- The method `UserService.ValidateUser`; `none` is the nil error. -/
def service.UserService.ValidateUser (s : UserService) (user : User) : Option GoError :=
  if user.Email = "" then
    some (errors.New "email is required")
  else if user.Name = "" then
    some (errors.New "name is required")
  else if !s.isValidEmail user.Email then
    some (errors.New "invalid email format")
  else
    none

/-- The method `UserService.SanitizeName`. -/
def service.UserService.SanitizeName (_s : UserService) (name : String) : String :=
  strings.TrimSpace name

/-! ## The repository interface -/

/-- The interface `repository.UserRepository`, with the six methods the SQL implementation
provides.  Each method maps the repository state to its results and the next state. -/
structure repository.UserRepository (σ : Type) where
  Create : User → σ → Option GoError × σ
  GetByID : UUID → σ → (Option User × Option GoError) × σ
  GetByEmail : String → σ → (Option User × Option GoError) × σ
  Update : User → σ → Option GoError × σ
  Delete : UUID → σ → Option GoError × σ
  GetAll : σ → (List User × Option GoError) × σ

open repository (UserRepository)

/-! ## internal/usecase/user_usecase.go -/

/-- The struct `usecase.UserUseCase`. -/
structure usecase.UserUseCase (σ : Type) where
  userRepo : UserRepository σ
  userService : UserService

open usecase (UserUseCase)

/-- The constructor `usecase.NewUserUseCase`. -/
def usecase.NewUserUseCase {σ : Type} (userRepo : UserRepository σ) : UserUseCase σ :=
  { userRepo := userRepo, userService := service.NewUserService }

/-- The method `UserUseCase.CreateUser`.  The error returned by `GetByEmail` is discarded, as
in the source (`existingUser, _ := ...`). -/
def usecase.UserUseCase.CreateUser {σ : Type} (uc : UserUseCase σ) (w : World σ)
    (email name : String) : (Option User × Option GoError) × World σ :=
  let r1 := w.exec (.GetByEmail email) (uc.userRepo.GetByEmail email)
  match r1.1.1 with
  | some _ => ((none, some (errors.New "user with this email already exists")), r1.2)
  | none =>
    let name := uc.userService.SanitizeName name
    let r2 := entity.NewUser r1.2 email name
    match uc.userService.ValidateUser r2.1 with
    | some err => ((none, some err), r2.2)
    | none =>
      let r3 := r2.2.exec (.Create r2.1) (uc.userRepo.Create r2.1)
      match r3.1 with
      | some err => ((none, some err), r3.2)
      | none => ((some r2.1, none), r3.2)

/-- The method `UserUseCase.GetUserByID`. -/
def usecase.UserUseCase.GetUserByID {σ : Type} (uc : UserUseCase σ) (w : World σ)
    (id : UUID) : (Option User × Option GoError) × World σ :=
  let r1 := w.exec (.GetByID id) (uc.userRepo.GetByID id)
  match r1.1.2 with
  | some err => ((none, some err), r1.2)
  | none =>
    match r1.1.1 with
    | none => ((none, some (errors.New "user not found")), r1.2)
    | some user => ((some user, none), r1.2)

/-- The method `UserUseCase.UpdateUser`. -/
def usecase.UserUseCase.UpdateUser {σ : Type} (uc : UserUseCase σ) (w : World σ)
    (id : UUID) (name : String) : (Option User × Option GoError) × World σ :=
  let r1 := w.exec (.GetByID id) (uc.userRepo.GetByID id)
  match r1.1.2 with
  | some err => ((none, some err), r1.2)
  | none =>
    match r1.1.1 with
    | none => ((none, some (errors.New "user not found")), r1.2)
    | some user =>
      let name := uc.userService.SanitizeName name
      let r2 := user.Update r1.2 name
      match uc.userService.ValidateUser r2.1 with
      | some err => ((none, some err), r2.2)
      | none =>
        let r3 := r2.2.exec (.Update r2.1) (uc.userRepo.Update r2.1)
        match r3.1 with
        | some err => ((none, some err), r3.2)
        | none => ((some r2.1, none), r3.2)

/-- The method `UserUseCase.DeleteUser`. -/
def usecase.UserUseCase.DeleteUser {σ : Type} (uc : UserUseCase σ) (w : World σ)
    (id : UUID) : Option GoError × World σ :=
  let r1 := w.exec (.GetByID id) (uc.userRepo.GetByID id)
  match r1.1.2 with
  | some err => (some err, r1.2)
  | none =>
    match r1.1.1 with
    | none => (some (errors.New "user not found"), r1.2)
    | some _ => r1.2.exec (.Delete id) (uc.userRepo.Delete id)

/-- The method `UserUseCase.GetAllUsers`. -/
def usecase.UserUseCase.GetAllUsers {σ : Type} (uc : UserUseCase σ) (w : World σ) :
    (List User × Option GoError) × World σ :=
  w.exec .GetAll uc.userRepo.GetAll

/-! ## Sequences of use-case calls -/

/-- One call of a use-case operation, with its arguments. -/
inductive Request where
  | CreateUser (email name : String)
  | GetUserByID (id : UUID)
  | UpdateUser (id : UUID) (name : String)
  | DeleteUser (id : UUID)
  | GetAllUsers
deriving DecidableEq, Repr

/-- The world after one use-case call; what the call returns is dropped. -/
def usecase.UserUseCase.serve {σ : Type} (uc : UserUseCase σ) (w : World σ) :
    Request → World σ
  | .CreateUser email name => (uc.CreateUser w email name).2
  | .GetUserByID id => (uc.GetUserByID w id).2
  | .UpdateUser id name => (uc.UpdateUser w id name).2
  | .DeleteUser id => (uc.DeleteUser w id).2
  | .GetAllUsers => (uc.GetAllUsers w).2

/-- The world after a sequence of use-case calls, made one after the other. -/
def usecase.UserUseCase.serveAll {σ : Type} (uc : UserUseCase σ) (w : World σ)
    (rs : List Request) : World σ :=
  rs.foldl uc.serve w

/-! ## infrastructure/repository/user_repository_impl.go -/

/-- The database behind `userRepositoryImpl`: the rows of table `users` and the number of
statements executed so far. -/
structure DB where
  users : List User
  stmts : Nat
deriving DecidableEq, Repr

/-- The method `userRepositoryImpl.Create`: the `INSERT`.  `faults k` is the error with which
the driver fails the `k`-th statement, if it does; a failed statement changes no row. -/
def userRepositoryImpl.Create (faults : Nat → Option GoError) (user : User) (db : DB) :
    Option GoError × DB :=
  match faults db.stmts with
  | some err => (some err, { db with stmts := db.stmts + 1 })
  | none => (none, { users := db.users ++ [user], stmts := db.stmts + 1 })

/-- The method `userRepositoryImpl.GetByID`: the `SELECT ... WHERE id = $1`; no row gives
`nil, nil`. -/
def userRepositoryImpl.GetByID (faults : Nat → Option GoError) (id : UUID) (db : DB) :
    (Option User × Option GoError) × DB :=
  match faults db.stmts with
  | some err => ((none, some err), { db with stmts := db.stmts + 1 })
  | none => ((db.users.find? (fun u => u.ID = id), none), { db with stmts := db.stmts + 1 })

/-- The method `userRepositoryImpl.GetByEmail`: the `SELECT ... WHERE email = $1`; no row
gives `nil, nil`. -/
def userRepositoryImpl.GetByEmail (faults : Nat → Option GoError) (email : String) (db : DB) :
    (Option User × Option GoError) × DB :=
  match faults db.stmts with
  | some err => ((none, some err), { db with stmts := db.stmts + 1 })
  | none =>
    ((db.users.find? (fun u => u.Email = email), none), { db with stmts := db.stmts + 1 })

/-- The method `userRepositoryImpl.Update`: the `UPDATE users SET name, updated_at WHERE id`. -/
def userRepositoryImpl.Update (faults : Nat → Option GoError) (user : User) (db : DB) :
    Option GoError × DB :=
  match faults db.stmts with
  | some err => (some err, { db with stmts := db.stmts + 1 })
  | none =>
    (none,
      { users := db.users.map (fun u =>
          if u.ID = user.ID then { u with Name := user.Name, UpdatedAt := user.UpdatedAt }
          else u),
        stmts := db.stmts + 1 })

/-- The method `userRepositoryImpl.Delete`: the `DELETE FROM users WHERE id = $1`. -/
def userRepositoryImpl.Delete (faults : Nat → Option GoError) (id : UUID) (db : DB) :
    Option GoError × DB :=
  match faults db.stmts with
  | some err => (some err, { db with stmts := db.stmts + 1 })
  | none => (none, { users := db.users.filter (fun u => u.ID ≠ id), stmts := db.stmts + 1 })

/-- The method `userRepositoryImpl.GetAll`: the `SELECT ... ORDER BY created_at DESC`. -/
def userRepositoryImpl.GetAll (faults : Nat → Option GoError) (db : DB) :
    (List User × Option GoError) × DB :=
  match faults db.stmts with
  | some err => (([], some err), { db with stmts := db.stmts + 1 })
  | none =>
    ((db.users.insertionSort (fun a b => b.CreatedAt ≤ a.CreatedAt), none),
      { db with stmts := db.stmts + 1 })

/-- The constructor `repository.NewUserRepository`: the SQL implementation as a
`UserRepository` over `DB`, for a given schedule of driver failures. -/
def repository.NewUserRepository (faults : Nat → Option GoError) : UserRepository DB :=
  { Create := userRepositoryImpl.Create faults
    GetByID := userRepositoryImpl.GetByID faults
    GetByEmail := userRepositoryImpl.GetByEmail faults
    Update := userRepositoryImpl.Update faults
    Delete := userRepositoryImpl.Delete faults
    GetAll := userRepositoryImpl.GetAll faults }

/-- A driver that never fails. -/
def noFaults : Nat → Option GoError := fun _ => none

/-- A world over an empty `users` table whose clock reads `100, 101, ...` and whose random
source yields the bytes `0, 1, 2, ...`. -/
def World.fresh : World DB :=
  { store := { users := [], stmts := 0 }, calls := [], now := fun k => 100 + k, ticks := 0,
    rand := fun k => k, drawn := 0 }

/-- The record that `CreateUser "a@b.com" "  Bob  "` builds in `World.fresh`. -/
def bob : User :=
  { ID := [0, 1, 2, 3, 4, 5, 70, 7, 136, 9, 10, 11, 12, 13, 14, 15], Email := "a@b.com",
    Name := "Bob", CreatedAt := 100, UpdatedAt := 101 }

/-- The world `World.fresh` after `bob` has been created in it. -/
def World.withBob : World DB :=
  { store := { users := [bob], stmts := 2 },
    calls := [Call.GetByEmail "a@b.com", Call.Create bob],
    now := fun k => 100 + k, ticks := 2, rand := fun k => k, drawn := 16 }

/-- A driver that fails its `k`-th statement with "connection refused" and no other. -/
def failAt (k : Nat) : Nat → Option GoError :=
  fun i => if i = k then some (errors.New "connection refused") else none

/-- A record whose email has no "@": a row that was not written through the use case. -/
def legacy : User :=
  { ID := [7, 7, 7, 7, 7, 7, 71, 7, 135, 7, 7, 7, 7, 7, 7, 7], Email := "root",
    Name := "Root", CreatedAt := 50, UpdatedAt := 50 }

/-- A world whose table holds only `legacy`. -/
def World.withLegacy : World DB :=
  { World.fresh with store := { users := [legacy], stmts := 0 } }

/-- The world `World.withBob` with a clock that stands still at 101. -/
def World.stopped : World DB :=
  { World.withBob with now := fun _ => 101 }

/-- The use case over the SQL repository with a driver that never fails. -/
def sqlUseCase : UserUseCase DB := usecase.NewUserUseCase (repository.NewUserRepository noFaults)

/-! ## Basic facts about the world and the library functions -/

open usecase repository entity service

@[simp] theorem World.exec_fst {σ α : Type} (w : World σ) (c : Call) (f : σ → α × σ) :
    (w.exec c f).1 = (f w.store).1 := rfl

@[simp] theorem World.exec_store {σ α : Type} (w : World σ) (c : Call) (f : σ → α × σ) :
    (w.exec c f).2.store = (f w.store).2 := rfl

@[simp] theorem World.exec_calls {σ α : Type} (w : World σ) (c : Call) (f : σ → α × σ) :
    (w.exec c f).2.calls = w.calls ++ [c] := rfl

@[simp] theorem World.exec_now {σ α : Type} (w : World σ) (c : Call) (f : σ → α × σ) :
    (w.exec c f).2.now = w.now := rfl

@[simp] theorem World.exec_ticks {σ α : Type} (w : World σ) (c : Call) (f : σ → α × σ) :
    (w.exec c f).2.ticks = w.ticks := rfl

@[simp] theorem World.exec_rand {σ α : Type} (w : World σ) (c : Call) (f : σ → α × σ) :
    (w.exec c f).2.rand = w.rand := rfl

@[simp] theorem World.exec_drawn {σ α : Type} (w : World σ) (c : Call) (f : σ → α × σ) :
    (w.exec c f).2.drawn = w.drawn := rfl

theorem NewUser_fst {σ : Type} (w : World σ) (email name : String) :
    (entity.NewUser w email name).1 =
      { ID := (uuid.New w).1, Email := email, Name := name,
        CreatedAt := w.now w.ticks, UpdatedAt := w.now (w.ticks + 1) } := rfl

theorem NewUser_snd {σ : Type} (w : World σ) (email name : String) :
    (entity.NewUser w email name).2 =
      { w with ticks := w.ticks + 1 + 1, drawn := w.drawn + 16 } := rfl

theorem NewUser_exec {σ α : Type} (w : World σ) (c : Call) (f : σ → α × σ)
    (email name : String) :
    (entity.NewUser (w.exec c f).2 email name).1 = (entity.NewUser w email name).1 := rfl

theorem Update_fst {σ : Type} (u : User) (w : World σ) (name : String) :
    (u.Update w name).1 = { u with Name := name, UpdatedAt := w.now w.ticks } := rfl

theorem Update_snd {σ : Type} (u : User) (w : World σ) (name : String) :
    (u.Update w name).2 = { w with ticks := w.ticks + 1 } := rfl

theorem version_byte_ne_zero (x : Nat) : (x &&& 0x0f) ||| 0x40 ≠ 0 := by
  intro h
  have h6 := congrArg (fun n => n.testBit 6) h
  have e : Nat.testBit 64 6 = true := by decide
  simp [Nat.testBit_or, e] at h6

/-- The identity drawn by `uuid.New()` is never `uuid.Nil`: its byte 6 carries the version. -/
theorem uuid_New_ne_Nil {σ : Type} (w : World σ) : (uuid.New w).1 ≠ uuid.Nil := by
  intro h
  have h6 := congrArg (fun l => l.getD 6 0) h
  simp [uuid.New, uuid.Nil, List.getD_eq_getElem?_getD, List.getElem?_set,
    List.getElem?_replicate] at h6
  exact version_byte_ne_zero _ h6

/-- Trimming a list at both ends removes a run of `p`-characters in front and one at the
back, and what is left neither starts nor ends with a `p`-character. -/
theorem trim_list (p : Char → Bool) (l : List Char) :
    ∃ pre suf : List Char,
      l = pre ++ ((l.dropWhile p).reverse.dropWhile p).reverse ++ suf
      ∧ (∀ c ∈ pre, p c = true) ∧ (∀ c ∈ suf, p c = true)
      ∧ (∀ c, ((l.dropWhile p).reverse.dropWhile p).reverse.head? = some c → p c = false)
      ∧ (∀ c, ((l.dropWhile p).reverse.dropWhile p).reverse.getLast? = some c →
          p c = false) := by
  set m := l.dropWhile p with hm
  have hl : l = l.takeWhile p ++ m := (List.takeWhile_append_dropWhile p l).symm
  have hmr : m.reverse = m.reverse.takeWhile p ++ m.reverse.dropWhile p :=
    (List.takeWhile_append_dropWhile p m.reverse).symm
  have hm2 : m = (m.reverse.dropWhile p).reverse ++ (m.reverse.takeWhile p).reverse := by
    have h := congrArg List.reverse hmr
    rw [List.reverse_reverse, List.reverse_append] at h
    exact h
  refine ⟨l.takeWhile p, (m.reverse.takeWhile p).reverse, ?_, ?_, ?_, ?_, ?_⟩
  · rw [List.append_assoc, ← hm2]; exact hl
  · intro c hc; exact List.mem_takeWhile_imp hc
  · intro c hc; exact List.mem_takeWhile_imp (List.mem_reverse.mp hc)
  · intro c hc
    have h1 : m.head? = some c := by
      rw [hm2, List.head?_append, hc]; rfl
    have h2 := List.head?_dropWhile_not p l
    rw [← hm, h1] at h2
    simpa using h2
  · intro c hc
    rw [List.getLast?_reverse] at hc
    have h2 := List.head?_dropWhile_not p m.reverse
    rw [hc] at h2
    simpa using h2

/-- What `strings.TrimSpace` does to a string, and nothing more. -/
theorem TrimSpace_spec (s : String) :
    ∃ pre suf : List Char,
      s.data = pre ++ (strings.TrimSpace s).data ++ suf
      ∧ (∀ c ∈ pre, unicode.IsSpace c = true) ∧ (∀ c ∈ suf, unicode.IsSpace c = true)
      ∧ (∀ c, (strings.TrimSpace s).data.head? = some c → unicode.IsSpace c = false)
      ∧ (∀ c, (strings.TrimSpace s).data.getLast? = some c → unicode.IsSpace c = false) :=
  trim_list unicode.IsSpace s.data

theorem occursIn_single (c : Char) (l : List Char) : occursIn [c] l = true ↔ c ∈ l := by
  induction l with
  | nil => simp [occursIn, startsWith]
  | cons d ds ih =>
    have hs : startsWith (d :: ds) [c] = decide (d = c) := by simp [startsWith]
    rw [occursIn, hs, Bool.or_eq_true, ih, List.mem_cons, decide_eq_true_iff]
    constructor
    · rintro (h | h)
      · exact Or.inl h.symm
      · exact Or.inr h
    · rintro (h | h)
      · exact Or.inl h.symm
      · exact Or.inr h

theorem Contains_at (s : String) : strings.Contains s "@" = true ↔ '@' ∈ s.data :=
  occursIn_single '@' s.data

theorem Contains_dot (s : String) : strings.Contains s "." = true ↔ '.' ∈ s.data :=
  occursIn_single '.' s.data

theorem ValidateUser_eq_none (s : UserService) (u : User) :
    s.ValidateUser u = none ↔
      u.Email ≠ "" ∧ u.Name ≠ "" ∧ strings.Contains u.Email "@" = true
        ∧ strings.Contains u.Email "." = true := by
  unfold UserService.ValidateUser UserService.isValidEmail
  by_cases h1 : u.Email = "" <;> by_cases h2 : u.Name = "" <;> simp [h1, h2]

theorem ValidateUser_messages (s : UserService) (u : User) (e : GoError)
    (h : s.ValidateUser u = some e) :
    e = errors.New "email is required" ∨ e = errors.New "name is required"
      ∨ e = errors.New "invalid email format" := by
  unfold UserService.ValidateUser at h
  split_ifs at h
  · exact Or.inl (Option.some.inj h).symm
  · exact Or.inr (Or.inl (Option.some.inj h).symm)
  · exact Or.inr (Or.inr (Option.some.inj h).symm)

theorem GetByEmail_users (faults : Nat → Option GoError) (email : String) (db : DB) :
    (userRepositoryImpl.GetByEmail faults email db).2.users = db.users := by
  unfold userRepositoryImpl.GetByEmail; split <;> rfl

theorem GetByID_users (faults : Nat → Option GoError) (id : UUID) (db : DB) :
    (userRepositoryImpl.GetByID faults id db).2.users = db.users := by
  unfold userRepositoryImpl.GetByID; split <;> rfl

/-! ## The claims -/

/-- C1. If the repository's `GetByEmail` returns a user for the email, `CreateUser` returns
no user and the error "user with this email already exists"; the only repository call it
makes is that `GetByEmail` (no `Create`), it reads neither the clock nor the random source,
and the store is left as the lookup left it; over the SQL repository the rows of `users` are
unchanged. -/
theorem createUser_existing_email {σ : Type} (uc : UserUseCase σ) (w : World σ)
    (email name : String) (u : User)
    (h : (uc.userRepo.GetByEmail email w.store).1.1 = some u) :
    (uc.CreateUser w email name).1
        = (none, some (errors.New "user with this email already exists"))
      ∧ (uc.CreateUser w email name).2
        = (w.exec (.GetByEmail email) (uc.userRepo.GetByEmail email)).2
      ∧ (uc.CreateUser w email name).2.calls = w.calls ++ [Call.GetByEmail email]
      ∧ (∀ (faults : Nat → Option GoError) (d : World DB) (v : User),
          (userRepositoryImpl.GetByEmail faults email d.store).1.1 = some v →
          ((NewUserUseCase (NewUserRepository faults)).CreateUser d email name).2.store.users
            = d.store.users) := by
  have key : ∀ {τ : Type} (c : UserUseCase τ) (x : World τ) (v : User),
      (c.userRepo.GetByEmail email x.store).1.1 = some v →
      c.CreateUser x email name
        = ((none, some (errors.New "user with this email already exists")),
            (x.exec (.GetByEmail email) (c.userRepo.GetByEmail email)).2) := by
    intro τ c x v hv
    simp [UserUseCase.CreateUser, hv]
  refine ⟨?_, ?_, ?_, ?_⟩
  · rw [key uc w u h]
  · rw [key uc w u h]
  · rw [key uc w u h]; rfl
  · intro faults d v hv
    rw [key (NewUserUseCase (NewUserRepository faults)) d v hv]
    exact GetByEmail_users faults email d.store

/-- C1 at a concrete input: "a@b.com" is stored, and creating it again fails. -/
theorem createUser_existing_email_witness :
    (sqlUseCase.userRepo.GetByEmail "a@b.com" World.withBob.store).1.1 = some bob
      ∧ (sqlUseCase.CreateUser World.withBob "a@b.com" "X").1
        = (none, some (errors.New "user with this email already exists")) :=
  ⟨by decide, (createUser_existing_email sqlUseCase World.withBob "a@b.com" "X" bob
    (by decide)).1⟩

/-- C5 as written fails: the email "a@b" is not empty, the name is not empty and the email
does not lack both characters (it has an "@"), yet `ValidateUser` returns an error. -/
theorem validateUser_lacks_both_counterexample :
    service.NewUserService.ValidateUser
        { ID := uuid.Nil, Email := "a@b", Name := "Bob", CreatedAt := 0, UpdatedAt := 0 }
        = some (errors.New "invalid email format")
      ∧ ("a@b" : String) ≠ "" ∧ ("Bob" : String) ≠ ""
      ∧ ¬ (strings.Contains "a@b" "@" = false ∧ strings.Contains "a@b" "." = false) := by
  decide

/-- C5, amended. `ValidateUser` returns an error if and only if the email is empty, or the
name is empty, or the email lacks an "@", or the email lacks a "."; in every other case it
returns nil. -/
theorem validateUser_error_iff (s : UserService) (u : User) :
    (s.ValidateUser u ≠ none ↔
        u.Email = "" ∨ u.Name = "" ∨ '@' ∉ u.Email.data ∨ '.' ∉ u.Email.data)
      ∧ (s.ValidateUser u = none ↔
        ¬ (u.Email = "" ∨ u.Name = "" ∨ '@' ∉ u.Email.data ∨ '.' ∉ u.Email.data)) := by
  have h := ValidateUser_eq_none s u
  rw [Contains_at, Contains_dot] at h
  constructor
  · rw [Ne, h]; tauto
  · rw [h]; tauto

/-- C6. If `GetByID` returns no value and no error for the id, then `GetUserByID`,
`UpdateUser` and `DeleteUser` each fail with "user not found"; each leaves the world as the
single `GetByID` call left it, so the only repository call is that `GetByID` (no `Update`,
no `Delete`); over the SQL repository the rows of `users` are unchanged. -/
theorem missing_id_not_found {σ : Type} (uc : UserUseCase σ) (w : World σ) (id : UUID)
    (name : String) (h : (uc.userRepo.GetByID id w.store).1 = (none, none)) :
    uc.GetUserByID w id
        = ((none, some (errors.New "user not found")),
            (w.exec (.GetByID id) (uc.userRepo.GetByID id)).2)
      ∧ uc.UpdateUser w id name
        = ((none, some (errors.New "user not found")),
            (w.exec (.GetByID id) (uc.userRepo.GetByID id)).2)
      ∧ uc.DeleteUser w id
        = (some (errors.New "user not found"),
            (w.exec (.GetByID id) (uc.userRepo.GetByID id)).2)
      ∧ (w.exec (.GetByID id) (uc.userRepo.GetByID id)).2.calls = w.calls ++ [Call.GetByID id]
      ∧ (∀ (faults : Nat → Option GoError) (d : World DB),
          (userRepositoryImpl.GetByID faults id d.store).1 = (none, none) →
          ((NewUserUseCase (NewUserRepository faults)).UpdateUser d id name).2.store.users
              = d.store.users
            ∧ ((NewUserUseCase (NewUserRepository faults)).DeleteUser d id).2.store.users
              = d.store.users) := by
  have h1 : (uc.userRepo.GetByID id w.store).1.1 = none := by rw [h]
  have h2 : (uc.userRepo.GetByID id w.store).1.2 = none := by rw [h]
  refine ⟨?_, ?_, ?_, rfl, ?_⟩
  · simp [UserUseCase.GetUserByID, h1, h2]
  · simp [UserUseCase.UpdateUser, h1, h2]
  · simp [UserUseCase.DeleteUser, h1, h2]
  · intro faults d hd
    have d1 : (userRepositoryImpl.GetByID faults id d.store).1.1 = none := by rw [hd]
    have d2 : (userRepositoryImpl.GetByID faults id d.store).1.2 = none := by rw [hd]
    constructor
    · simp [UserUseCase.UpdateUser, NewUserUseCase, NewUserRepository, d1, d2,
        GetByID_users]
    · simp [UserUseCase.DeleteUser, NewUserUseCase, NewUserRepository, d1, d2,
        GetByID_users]

/-- C6 at a concrete input: the all-zero id is not in the store that holds `bob`. -/
theorem missing_id_not_found_witness :
    (sqlUseCase.userRepo.GetByID uuid.Nil World.withBob.store).1 = (none, none)
      ∧ (sqlUseCase.DeleteUser World.withBob uuid.Nil).1
        = some (errors.New "user not found") :=
  ⟨by decide, by
    rw [(missing_id_not_found sqlUseCase World.withBob uuid.Nil "X" (by decide)).2.2.1]⟩

/-! ### Creation: what a successful call did, and when a call succeeds -/

/-- A `CreateUser` call that returns a user found no user under the email, built the user
from the trimmed name, validated it and handed it to `Create`, which returned no error. -/
theorem CreateUser_ok {σ : Type} (uc : UserUseCase σ) (w : World σ) (email name : String)
    (u : User) (h : (uc.CreateUser w email name).1.1 = some u) :
    (uc.userRepo.GetByEmail email w.store).1.1 = none
      ∧ u = (entity.NewUser w email (strings.TrimSpace name)).1
      ∧ uc.userService.ValidateUser u = none
      ∧ (uc.userRepo.Create u (uc.userRepo.GetByEmail email w.store).2).1 = none
      ∧ (uc.CreateUser w email name).1.2 = none
      ∧ (uc.CreateUser w email name).2.calls
          = w.calls ++ [Call.GetByEmail email, Call.Create u]
      ∧ (uc.CreateUser w email name).2.store
          = (uc.userRepo.Create u (uc.userRepo.GetByEmail email w.store).2).2 := by
  unfold UserUseCase.CreateUser at h ⊢
  simp only at h ⊢
  split at h
  · simp at h
  · rename_i h1
    split at h
    · simp at h
    · rename_i h2
      split at h
      · simp at h
      · rename_i h3
        simp only [Option.some.injEq] at h
        subst h
        simp only [h1, h2, h3]
        refine ⟨by simpa using h1, rfl, trivial, by simpa using h3, trivial, ?_, rfl⟩
        simp only [World.exec_calls, NewUser_snd, List.append_assoc]
        rfl

/-- A `CreateUser` call whose lookup finds no user, whose user passes validation and whose
`Create` returns no error, returns that user and no error. -/
theorem CreateUser_succeeds {σ : Type} (uc : UserUseCase σ) (w : World σ)
    (email name : String)
    (hfresh : (uc.userRepo.GetByEmail email w.store).1.1 = none)
    (hval : uc.userService.ValidateUser (entity.NewUser w email (strings.TrimSpace name)).1
      = none)
    (hcreate : (uc.userRepo.Create (entity.NewUser w email (strings.TrimSpace name)).1
      (uc.userRepo.GetByEmail email w.store).2).1 = none) :
    (uc.CreateUser w email name).1
      = (some (entity.NewUser w email (strings.TrimSpace name)).1, none) := by
  have h1 : (w.exec (.GetByEmail email) (uc.userRepo.GetByEmail email)).1.1 = none := hfresh
  have h2 : uc.userService.ValidateUser
      (entity.NewUser (w.exec (.GetByEmail email) (uc.userRepo.GetByEmail email)).2 email
        (uc.userService.SanitizeName name)).1 = none := hval
  have h3 : ((entity.NewUser (w.exec (.GetByEmail email) (uc.userRepo.GetByEmail email)).2
        email (uc.userService.SanitizeName name)).2.exec
      (.Create (entity.NewUser (w.exec (.GetByEmail email) (uc.userRepo.GetByEmail email)).2
        email (uc.userService.SanitizeName name)).1)
      (uc.userRepo.Create
        (entity.NewUser (w.exec (.GetByEmail email) (uc.userRepo.GetByEmail email)).2
          email (uc.userService.SanitizeName name)).1)).1 = none := hcreate
  unfold UserUseCase.CreateUser
  simp only [h1, h2, h3]
  rfl

/-- A `CreateUser` call whose lookup finds no user and whose user fails validation returns
the validation error after the lookup, without calling `Create`. -/
theorem CreateUser_invalid {σ : Type} (uc : UserUseCase σ) (w : World σ)
    (email name : String) (e : GoError)
    (hfresh : (uc.userRepo.GetByEmail email w.store).1.1 = none)
    (hval : uc.userService.ValidateUser (entity.NewUser w email (strings.TrimSpace name)).1
      = some e) :
    (uc.CreateUser w email name).1 = (none, some e)
      ∧ (uc.CreateUser w email name).2.calls = w.calls ++ [Call.GetByEmail email] := by
  have h1 : (w.exec (.GetByEmail email) (uc.userRepo.GetByEmail email)).1.1 = none := hfresh
  have h2 : uc.userService.ValidateUser
      (entity.NewUser (w.exec (.GetByEmail email) (uc.userRepo.GetByEmail email)).2 email
        (uc.userService.SanitizeName name)).1 = some e := hval
  unfold UserUseCase.CreateUser
  simp only [h1, h2]
  exact ⟨trivial, rfl⟩

/-- C2 as written fails: with no stored user under the email, `CreateUser` still fails when
the email is empty, and when the repository's `Create` fails. -/
theorem createUser_fresh_email_counterexample :
    (sqlUseCase.userRepo.GetByEmail "" World.fresh.store).1 = (none, none)
      ∧ (sqlUseCase.CreateUser World.fresh "" "Bob").1
        = (none, some (errors.New "email is required"))
      ∧ ((NewUserRepository (failAt 1)).GetByEmail "a@b.com" World.fresh.store).1
        = (none, none)
      ∧ ((NewUserUseCase (NewUserRepository (failAt 1))).CreateUser World.fresh "a@b.com"
          "Bob").1 = (none, some (errors.New "connection refused")) := by
  decide

/-- C2, amended. If `GetByEmail` returns no user and no error for the email, the email is
not empty and has an "@" and a ".", the trimmed name is not empty, and the repository's
`Create` returns no error for the new record, then `CreateUser` returns a nil error and a
user record whose identity is not the nil UUID. -/
theorem createUser_fresh_email_succeeds {σ : Type} (uc : UserUseCase σ) (w : World σ)
    (email name : String)
    (hfresh : (uc.userRepo.GetByEmail email w.store).1 = (none, none))
    (hemail : email ≠ "") (hat : '@' ∈ email.data) (hdot : '.' ∈ email.data)
    (hname : strings.TrimSpace name ≠ "")
    (hcreate : (uc.userRepo.Create (entity.NewUser w email (strings.TrimSpace name)).1
      (uc.userRepo.GetByEmail email w.store).2).1 = none) :
    ∃ u : User, (uc.CreateUser w email name).1 = (some u, none) ∧ u.ID ≠ uuid.Nil := by
  refine ⟨(entity.NewUser w email (strings.TrimSpace name)).1, ?_, uuid_New_ne_Nil w⟩
  apply CreateUser_succeeds uc w email name (by rw [hfresh]) ?_ hcreate
  rw [ValidateUser_eq_none]
  exact ⟨hemail, hname, (Contains_at email).mpr hat, (Contains_dot email).mpr hdot⟩

/-- C2 (amended) at a concrete input: creating "a@b.com" in an empty table. -/
theorem createUser_fresh_email_succeeds_witness :
    ∃ u : User, (sqlUseCase.CreateUser World.fresh "a@b.com" "  Bob  ").1 = (some u, none)
      ∧ u.ID ≠ uuid.Nil :=
  createUser_fresh_email_succeeds sqlUseCase World.fresh "a@b.com" "  Bob  " (by decide)
    (by decide) (by decide) (by decide) (by decide) (by decide)

/-- C3 as written fails: the clock is read twice, and when the two readings differ (here
100 and 101) the record returned by a successful `CreateUser` has `CreatedAt` different
from `UpdatedAt`. -/
theorem createUser_timestamps_counterexample :
    (sqlUseCase.CreateUser World.fresh "a@b.com" "Bob").1 = (some bob, none)
      ∧ bob.CreatedAt ≠ bob.UpdatedAt := by
  decide

/-- C3, amended. For every successful `CreateUser` call, the returned record is the one
handed to `Create`, its `CreatedAt` is the first reading of the clock inside
`entity.NewUser` and its `UpdatedAt` the second; so the two are equal exactly when the two
readings are. -/
theorem createUser_timestamps {σ : Type} (uc : UserUseCase σ) (w : World σ)
    (email name : String) (u : User) (h : (uc.CreateUser w email name).1 = (some u, none)) :
    u.CreatedAt = w.now w.ticks ∧ u.UpdatedAt = w.now (w.ticks + 1)
      ∧ (uc.CreateUser w email name).2.calls
          = w.calls ++ [Call.GetByEmail email, Call.Create u]
      ∧ (u.CreatedAt = u.UpdatedAt ↔ w.now w.ticks = w.now (w.ticks + 1)) := by
  obtain ⟨-, hu, -, -, -, hcalls, -⟩ := CreateUser_ok uc w email name u (by rw [h])
  have hc : u.CreatedAt = w.now w.ticks := by rw [hu, NewUser_fst]
  have hd : u.UpdatedAt = w.now (w.ticks + 1) := by rw [hu, NewUser_fst]
  exact ⟨hc, hd, hcalls, by rw [hc, hd]⟩

/-- C3 (amended) at a concrete input, where the clock reads 100 and then 101. -/
theorem createUser_timestamps_witness :
    (sqlUseCase.CreateUser World.fresh "a@b.com" "Bob").1 = (some bob, none)
      ∧ bob.CreatedAt = 100 ∧ bob.UpdatedAt = 101 :=
  ⟨by decide,
    (createUser_timestamps sqlUseCase World.fresh "a@b.com" "Bob" bob (by decide)).1,
    (createUser_timestamps sqlUseCase World.fresh "a@b.com" "Bob" bob (by decide)).2.1⟩

/-- C4 as written fails: the name is empty, but "a@b.com" is already stored, and
`CreateUser` fails with "user with this email already exists", which is none of the three
validation errors. -/
theorem createUser_invalid_input_counterexample :
    (sqlUseCase.CreateUser World.withBob "a@b.com" "").1
        = (none, some (errors.New "user with this email already exists"))
      ∧ errors.New "user with this email already exists" ≠ errors.New "email is required"
      ∧ errors.New "user with this email already exists" ≠ errors.New "name is required"
      ∧ errors.New "user with this email already exists"
        ≠ errors.New "invalid email format" := by
  decide

/-- C4, amended. If `GetByEmail` returns no user and no error for the email, and the name is
empty, or the email is empty, or the email is missing "@" or missing ".", then `CreateUser`
returns no user and one of the errors "email is required", "name is required", "invalid
email format", and makes no repository call after the lookup. -/
theorem createUser_invalid_input {σ : Type} (uc : UserUseCase σ) (w : World σ)
    (email name : String)
    (hfresh : (uc.userRepo.GetByEmail email w.store).1 = (none, none))
    (hbad : name = "" ∨ email = "" ∨ '@' ∉ email.data ∨ '.' ∉ email.data) :
    ∃ e : GoError, (uc.CreateUser w email name).1 = (none, some e)
      ∧ (e = errors.New "email is required" ∨ e = errors.New "name is required"
          ∨ e = errors.New "invalid email format")
      ∧ (uc.CreateUser w email name).2.calls = w.calls ++ [Call.GetByEmail email] := by
  have hne : uc.userService.ValidateUser (entity.NewUser w email (strings.TrimSpace name)).1
      ≠ none := by
    rw [Ne, ValidateUser_eq_none, Contains_at, Contains_dot]
    rintro ⟨h1, h2, h3, h4⟩
    rcases hbad with hb | hb | hb | hb
    · apply h2; rw [hb]; rfl
    · exact h1 hb
    · exact hb h3
    · exact hb h4
  obtain ⟨e, he⟩ := Option.ne_none_iff_exists'.mp hne
  obtain ⟨hres, hcalls⟩ := CreateUser_invalid uc w email name e (by rw [hfresh]) he
  exact ⟨e, hres, ValidateUser_messages _ _ e he, hcalls⟩

/-- C4 (amended) at a concrete input: an email without "." in an empty table. -/
theorem createUser_invalid_input_witness :
    ∃ e : GoError, (sqlUseCase.CreateUser World.fresh "a@b" "Bob").1 = (none, some e)
      ∧ (e = errors.New "email is required" ∨ e = errors.New "name is required"
          ∨ e = errors.New "invalid email format")
      ∧ (sqlUseCase.CreateUser World.fresh "a@b" "Bob").2.calls
        = World.fresh.calls ++ [Call.GetByEmail "a@b"] :=
  createUser_invalid_input sqlUseCase World.fresh "a@b" "Bob" (by decide)
    (Or.inr (Or.inr (Or.inr (by decide))))

/-! ### Update -/

/-- An `UpdateUser` call whose `GetByID` returns a user and no error, whose updated user
passes validation and whose `Update` returns no error, returns the updated user. -/
theorem UpdateUser_succeeds {σ : Type} (uc : UserUseCase σ) (w : World σ) (id : UUID)
    (name : String) (u : User)
    (hget : (uc.userRepo.GetByID id w.store).1 = (some u, none))
    (hval : uc.userService.ValidateUser
      { u with Name := strings.TrimSpace name, UpdatedAt := w.now w.ticks } = none)
    (hupd : (uc.userRepo.Update
      { u with Name := strings.TrimSpace name, UpdatedAt := w.now w.ticks }
      (uc.userRepo.GetByID id w.store).2).1 = none) :
    (uc.UpdateUser w id name).1
      = (some { u with Name := strings.TrimSpace name, UpdatedAt := w.now w.ticks }, none) := by
  have h1 : (w.exec (.GetByID id) (uc.userRepo.GetByID id)).1.1 = some u := by
    rw [World.exec_fst, hget]
  have h2 : (w.exec (.GetByID id) (uc.userRepo.GetByID id)).1.2 = none := by
    rw [World.exec_fst, hget]
  have h3 : uc.userService.ValidateUser
      (u.Update (w.exec (.GetByID id) (uc.userRepo.GetByID id)).2
        (uc.userService.SanitizeName name)).1 = none := hval
  have h4 : ((u.Update (w.exec (.GetByID id) (uc.userRepo.GetByID id)).2
        (uc.userService.SanitizeName name)).2.exec
      (.Update (u.Update (w.exec (.GetByID id) (uc.userRepo.GetByID id)).2
        (uc.userService.SanitizeName name)).1)
      (uc.userRepo.Update (u.Update (w.exec (.GetByID id) (uc.userRepo.GetByID id)).2
        (uc.userService.SanitizeName name)).1)).1 = none := hupd
  unfold UserUseCase.UpdateUser
  simp only [h1, h2, h3, h4]
  rfl

/-- C7 as written fails, for an existing user in each case: a name of white space only is
rejected with "name is required"; an error of the repository's `Update` is returned; a
clock that has not advanced gives an `UpdatedAt` that is not later than before; and a
stored email without "@" is rejected with "invalid email format". -/
theorem updateUser_existing_counterexample :
    (sqlUseCase.userRepo.GetByID bob.ID World.withBob.store).1 = (some bob, none)
      ∧ (sqlUseCase.UpdateUser World.withBob bob.ID "   ").1
        = (none, some (errors.New "name is required"))
      ∧ ((NewUserUseCase (NewUserRepository (failAt 3))).UpdateUser World.withBob bob.ID
          "Rob").1 = (none, some (errors.New "connection refused"))
      ∧ (sqlUseCase.UpdateUser World.stopped bob.ID "Rob").1
        = (some { bob with Name := "Rob" }, none)
      ∧ (sqlUseCase.userRepo.GetByID legacy.ID World.withLegacy.store).1 = (some legacy, none)
      ∧ (sqlUseCase.UpdateUser World.withLegacy legacy.ID "Rob").1
        = (none, some (errors.New "invalid email format")) := by
  decide

/-- C7, amended. If `GetByID` returns a record and no error for the id, the trimmed name is
not empty, the record's email is not empty and has an "@" and a ".", and the repository's
`Update` returns no error, then `UpdateUser` returns a nil error and a record whose name is
the new name with surrounding white space trimmed, whose `UpdatedAt` is the reading of the
clock taken during the call (later than before whenever that reading is later than the
stored value), and whose `ID`, `Email` and `CreatedAt` are those of the fetched record. -/
theorem updateUser_existing {σ : Type} (uc : UserUseCase σ) (w : World σ) (id : UUID)
    (name : String) (u : User)
    (hget : (uc.userRepo.GetByID id w.store).1 = (some u, none))
    (hname : strings.TrimSpace name ≠ "")
    (hemail : u.Email ≠ "") (hat : '@' ∈ u.Email.data) (hdot : '.' ∈ u.Email.data)
    (hupd : (uc.userRepo.Update
      { u with Name := strings.TrimSpace name, UpdatedAt := w.now w.ticks }
      (uc.userRepo.GetByID id w.store).2).1 = none) :
    ∃ v : User, (uc.UpdateUser w id name).1 = (some v, none)
      ∧ v.Name = strings.TrimSpace name
      ∧ v.UpdatedAt = w.now w.ticks
      ∧ (u.UpdatedAt < w.now w.ticks → u.UpdatedAt < v.UpdatedAt)
      ∧ v.ID = u.ID ∧ v.Email = u.Email ∧ v.CreatedAt = u.CreatedAt := by
  refine ⟨{ u with Name := strings.TrimSpace name, UpdatedAt := w.now w.ticks }, ?_, rfl, rfl,
    fun hlt => hlt, rfl, rfl, rfl⟩
  apply UpdateUser_succeeds uc w id name u hget ?_ hupd
  rw [ValidateUser_eq_none]
  exact ⟨hemail, hname, (Contains_at u.Email).mpr hat, (Contains_dot u.Email).mpr hdot⟩

/-- C7 (amended) at a concrete input: renaming `bob` to "Rob" at clock reading 102. -/
theorem updateUser_existing_witness :
    ∃ v : User, (sqlUseCase.UpdateUser World.withBob bob.ID "  Rob ").1 = (some v, none)
      ∧ v.Name = strings.TrimSpace "  Rob "
      ∧ v.UpdatedAt = World.withBob.now World.withBob.ticks
      ∧ (bob.UpdatedAt < World.withBob.now World.withBob.ticks → bob.UpdatedAt < v.UpdatedAt)
      ∧ v.ID = bob.ID ∧ v.Email = bob.Email ∧ v.CreatedAt = bob.CreatedAt :=
  updateUser_existing sqlUseCase World.withBob bob.ID "  Rob " bob (by decide) (by decide)
    (by decide) (by decide) (by decide) (by decide)

/-! ### Repository errors -/

/-- C9, the failing input. The driver fails the first statement, so `GetByEmail` returns the
error "connection refused"; `CreateUser` does not return it: it goes on to call `Create` and
returns the new user with a nil error.  When the email is already stored and the lookup
fails, a second row with the same email is inserted. -/
theorem createUser_drops_lookup_error :
    ((NewUserRepository (failAt 0)).GetByEmail "a@b.com" World.fresh.store).1
        = (none, some (errors.New "connection refused"))
      ∧ ((NewUserUseCase (NewUserRepository (failAt 0))).CreateUser World.fresh "a@b.com"
          "  Bob  ").1 = (some bob, none)
      ∧ ((NewUserUseCase (NewUserRepository (failAt 0))).CreateUser World.fresh "a@b.com"
          "  Bob  ").2.calls = [Call.GetByEmail "a@b.com", Call.Create bob]
      ∧ ((NewUserRepository (failAt 2)).GetByEmail "a@b.com" World.withBob.store).1
        = (none, some (errors.New "connection refused"))
      ∧ (((NewUserUseCase (NewUserRepository (failAt 2))).CreateUser World.withBob "a@b.com"
          "Eve").2.store.users.map (fun u => u.Email)) = ["a@b.com", "a@b.com"] := by
  decide

/-- An error of `GetByID` is returned unchanged by `GetUserByID`, `UpdateUser` and
`DeleteUser`, and no repository call follows it. -/
theorem GetByID_error_returned {σ : Type} (uc : UserUseCase σ) (w : World σ) (id : UUID)
    (name : String) (e : GoError) (h : (uc.userRepo.GetByID id w.store).1.2 = some e) :
    uc.GetUserByID w id = ((none, some e), (w.exec (.GetByID id) (uc.userRepo.GetByID id)).2)
      ∧ uc.UpdateUser w id name
        = ((none, some e), (w.exec (.GetByID id) (uc.userRepo.GetByID id)).2)
      ∧ uc.DeleteUser w id
        = (some e, (w.exec (.GetByID id) (uc.userRepo.GetByID id)).2) := by
  refine ⟨?_, ?_, ?_⟩
  · simp [UserUseCase.GetUserByID, h]
  · simp [UserUseCase.UpdateUser, h]
  · simp [UserUseCase.DeleteUser, h]

/-- An error of `Create` is returned unchanged by `CreateUser`, as its last call. -/
theorem Create_error_returned {σ : Type} (uc : UserUseCase σ) (w : World σ)
    (email name : String) (e : GoError)
    (hfresh : (uc.userRepo.GetByEmail email w.store).1.1 = none)
    (hval : uc.userService.ValidateUser (entity.NewUser w email (strings.TrimSpace name)).1
      = none)
    (hcreate : (uc.userRepo.Create (entity.NewUser w email (strings.TrimSpace name)).1
      (uc.userRepo.GetByEmail email w.store).2).1 = some e) :
    (uc.CreateUser w email name).1 = (none, some e)
      ∧ (uc.CreateUser w email name).2.calls
        = w.calls ++ [Call.GetByEmail email,
            Call.Create (entity.NewUser w email (strings.TrimSpace name)).1] := by
  have h1 : (w.exec (.GetByEmail email) (uc.userRepo.GetByEmail email)).1.1 = none := hfresh
  have h2 : uc.userService.ValidateUser
      (entity.NewUser (w.exec (.GetByEmail email) (uc.userRepo.GetByEmail email)).2 email
        (uc.userService.SanitizeName name)).1 = none := hval
  have h3 : ((entity.NewUser (w.exec (.GetByEmail email) (uc.userRepo.GetByEmail email)).2
        email (uc.userService.SanitizeName name)).2.exec
      (.Create (entity.NewUser (w.exec (.GetByEmail email) (uc.userRepo.GetByEmail email)).2
        email (uc.userService.SanitizeName name)).1)
      (uc.userRepo.Create
        (entity.NewUser (w.exec (.GetByEmail email) (uc.userRepo.GetByEmail email)).2
          email (uc.userService.SanitizeName name)).1)).1 = some e := hcreate
  unfold UserUseCase.CreateUser
  simp only [h1, h2, h3]
  refine ⟨trivial, ?_⟩
  simp only [World.exec_calls, NewUser_snd, List.append_assoc]
  rfl

/-- An error of `Update` is returned unchanged by `UpdateUser`, as its last call. -/
theorem Update_error_returned {σ : Type} (uc : UserUseCase σ) (w : World σ) (id : UUID)
    (name : String) (u : User) (e : GoError)
    (hget : (uc.userRepo.GetByID id w.store).1 = (some u, none))
    (hval : uc.userService.ValidateUser
      { u with Name := strings.TrimSpace name, UpdatedAt := w.now w.ticks } = none)
    (hupd : (uc.userRepo.Update
      { u with Name := strings.TrimSpace name, UpdatedAt := w.now w.ticks }
      (uc.userRepo.GetByID id w.store).2).1 = some e) :
    (uc.UpdateUser w id name).1 = (none, some e)
      ∧ (uc.UpdateUser w id name).2.calls
        = w.calls ++ [Call.GetByID id,
            Call.Update { u with Name := strings.TrimSpace name, UpdatedAt := w.now w.ticks }] := by
  have h1 : (w.exec (.GetByID id) (uc.userRepo.GetByID id)).1.1 = some u := by
    rw [World.exec_fst, hget]
  have h2 : (w.exec (.GetByID id) (uc.userRepo.GetByID id)).1.2 = none := by
    rw [World.exec_fst, hget]
  have h3 : uc.userService.ValidateUser
      (u.Update (w.exec (.GetByID id) (uc.userRepo.GetByID id)).2
        (uc.userService.SanitizeName name)).1 = none := hval
  have h4 : ((u.Update (w.exec (.GetByID id) (uc.userRepo.GetByID id)).2
        (uc.userService.SanitizeName name)).2.exec
      (.Update (u.Update (w.exec (.GetByID id) (uc.userRepo.GetByID id)).2
        (uc.userService.SanitizeName name)).1)
      (uc.userRepo.Update (u.Update (w.exec (.GetByID id) (uc.userRepo.GetByID id)).2
        (uc.userService.SanitizeName name)).1)).1 = some e := hupd
  unfold UserUseCase.UpdateUser
  simp only [h1, h2, h3, h4]
  refine ⟨trivial, ?_⟩
  simp only [World.exec_calls, Update_snd, List.append_assoc]
  rfl

/-- What `Delete` returns, error or nil, is what `DeleteUser` returns for an existing user;
what `GetAll` returns is what `GetAllUsers` returns. -/
theorem Delete_GetAll_returned {σ : Type} (uc : UserUseCase σ) (w : World σ) (id : UUID)
    (u : User) (hget : (uc.userRepo.GetByID id w.store).1 = (some u, none)) :
    (uc.DeleteUser w id).1
        = (uc.userRepo.Delete id (uc.userRepo.GetByID id w.store).2).1
      ∧ (uc.DeleteUser w id).2.calls = w.calls ++ [Call.GetByID id, Call.Delete id]
      ∧ (uc.GetAllUsers w).1 = (uc.userRepo.GetAll w.store).1
      ∧ (uc.GetAllUsers w).2.calls = w.calls ++ [Call.GetAll] := by
  have h1 : (w.exec (.GetByID id) (uc.userRepo.GetByID id)).1.1 = some u := by
    rw [World.exec_fst, hget]
  have h2 : (w.exec (.GetByID id) (uc.userRepo.GetByID id)).1.2 = none := by
    rw [World.exec_fst, hget]
  refine ⟨?_, ?_, rfl, rfl⟩
  · unfold UserUseCase.DeleteUser
    simp only [h1, h2]
    rfl
  · unfold UserUseCase.DeleteUser
    simp only [h1, h2, World.exec_calls, List.append_assoc]
    rfl

/-! ### The invariant of the persisted records -/

/-- A property of the world that every repository call of the use case keeps (a `Create` or
`Update` call being given a record with non-empty email and name), and that reading the
clock or the random source keeps, is kept by every use-case call. -/
theorem serve_preserves {σ : Type} (uc : UserUseCase σ) (P : World σ → Prop)
    (hE : ∀ w e, P w → P (w.exec (.GetByEmail e) (uc.userRepo.GetByEmail e)).2)
    (hI : ∀ w i, P w → P (w.exec (.GetByID i) (uc.userRepo.GetByID i)).2)
    (hA : ∀ w, P w → P (w.exec .GetAll uc.userRepo.GetAll).2)
    (hC : ∀ w u, u.Email ≠ "" → u.Name ≠ "" → P w →
      P (w.exec (.Create u) (uc.userRepo.Create u)).2)
    (hU : ∀ w u, u.Email ≠ "" → u.Name ≠ "" → P w →
      P (w.exec (.Update u) (uc.userRepo.Update u)).2)
    (hD : ∀ w i, P w → P (w.exec (.Delete i) (uc.userRepo.Delete i)).2)
    (hT : ∀ (w : World σ) t d, P w → P { w with ticks := t, drawn := d })
    (w : World σ) (r : Request) (hw : P w) : P (uc.serve w r) := by
  cases r with
  | CreateUser email name =>
    have p1 := hE w email hw
    have p2 : P (entity.NewUser (w.exec (.GetByEmail email) (uc.userRepo.GetByEmail email)).2
        email (uc.userService.SanitizeName name)).2 := by
      rw [NewUser_snd]; exact hT _ _ _ p1
    simp only [UserUseCase.serve]
    unfold UserUseCase.CreateUser
    simp only
    split
    · exact p1
    · split
      · exact p2
      · rename_i hv
        have hf := (ValidateUser_eq_none _ _).mp hv
        have p3 := hC _ _ hf.1 hf.2.1 p2
        split <;> exact p3
  | GetUserByID id =>
    have p1 := hI w id hw
    simp only [UserUseCase.serve]
    unfold UserUseCase.GetUserByID
    simp only
    split
    · exact p1
    · split <;> exact p1
  | UpdateUser id name =>
    have p1 := hI w id hw
    simp only [UserUseCase.serve]
    unfold UserUseCase.UpdateUser
    simp only
    split
    · exact p1
    · split
      · exact p1
      · rename_i user _
        have p2 : P (user.Update (w.exec (.GetByID id) (uc.userRepo.GetByID id)).2
            (uc.userService.SanitizeName name)).2 := by
          rw [Update_snd]; exact hT _ _ _ p1
        split
        · exact p2
        · rename_i hv
          have hf := (ValidateUser_eq_none _ _).mp hv
          have p3 := hU _ _ hf.1 hf.2.1 p2
          split <;> exact p3
  | DeleteUser id =>
    have p1 := hI w id hw
    simp only [UserUseCase.serve]
    unfold UserUseCase.DeleteUser
    simp only
    split
    · exact p1
    · split
      · exact p1
      · exact hD _ _ p1
  | GetAllUsers => exact hA w hw

/-- The same for a sequence of use-case calls. -/
theorem serveAll_preserves {σ : Type} (uc : UserUseCase σ) (P : World σ → Prop)
    (hE : ∀ w e, P w → P (w.exec (.GetByEmail e) (uc.userRepo.GetByEmail e)).2)
    (hI : ∀ w i, P w → P (w.exec (.GetByID i) (uc.userRepo.GetByID i)).2)
    (hA : ∀ w, P w → P (w.exec .GetAll uc.userRepo.GetAll).2)
    (hC : ∀ w u, u.Email ≠ "" → u.Name ≠ "" → P w →
      P (w.exec (.Create u) (uc.userRepo.Create u)).2)
    (hU : ∀ w u, u.Email ≠ "" → u.Name ≠ "" → P w →
      P (w.exec (.Update u) (uc.userRepo.Update u)).2)
    (hD : ∀ w i, P w → P (w.exec (.Delete i) (uc.userRepo.Delete i)).2)
    (hT : ∀ (w : World σ) t d, P w → P { w with ticks := t, drawn := d })
    (rs : List Request) : ∀ w : World σ, P w → P (uc.serveAll w rs) := by
  induction rs with
  | nil => intro w hw; exact hw
  | cons r rs ih =>
    intro w hw
    exact ih (uc.serve w r) (serve_preserves uc P hE hI hA hC hU hD hT w r hw)

theorem GetAll_users (faults : Nat → Option GoError) (db : DB) :
    (userRepositoryImpl.GetAll faults db).2.users = db.users := by
  unfold userRepositoryImpl.GetAll; split <;> rfl

theorem Create_users (faults : Nat → Option GoError) (u : User) (db : DB) (v : User)
    (hv : v ∈ (userRepositoryImpl.Create faults u db).2.users) : v ∈ db.users ∨ v = u := by
  unfold userRepositoryImpl.Create at hv
  split at hv
  · exact Or.inl hv
  · simpa using hv

theorem Update_users (faults : Nat → Option GoError) (u : User) (db : DB) (v : User)
    (hv : v ∈ (userRepositoryImpl.Update faults u db).2.users) :
    v ∈ db.users
      ∨ ∃ r ∈ db.users, v = { r with Name := u.Name, UpdatedAt := u.UpdatedAt } := by
  unfold userRepositoryImpl.Update at hv
  split at hv
  · exact Or.inl hv
  · simp only [List.mem_map] at hv
    obtain ⟨r, hr, hrv⟩ := hv
    split_ifs at hrv
    · exact Or.inr ⟨r, hr, hrv.symm⟩
    · exact Or.inl (hrv ▸ hr)

theorem Delete_users (faults : Nat → Option GoError) (id : UUID) (db : DB) (v : User)
    (hv : v ∈ (userRepositoryImpl.Delete faults id db).2.users) : v ∈ db.users := by
  unfold userRepositoryImpl.Delete at hv
  split at hv
  · exact hv
  · exact (List.mem_filter.mp hv).1

/-- Recording one more call keeps "every record handed to `Create` or `Update` since the
start has a non-empty email and name", when the new call hands over such a record or
none. -/
theorem trace_step {σ α : Type} (base : List Call) (x : World σ) (c : Call) (f : σ → α × σ)
    (hc : ∀ u, (c = Call.Create u ∨ c = Call.Update u) → u.Email ≠ "" ∧ u.Name ≠ "")
    (hx : ∃ new : List Call, x.calls = base ++ new
      ∧ ∀ c ∈ new, ∀ u, (c = Call.Create u ∨ c = Call.Update u) → u.Email ≠ "" ∧ u.Name ≠ "") :
    ∃ new : List Call, (x.exec c f).2.calls = base ++ new
      ∧ ∀ c ∈ new, ∀ u, (c = Call.Create u ∨ c = Call.Update u) →
        u.Email ≠ "" ∧ u.Name ≠ "" := by
  obtain ⟨new, h, hv⟩ := hx
  refine ⟨new ++ [c], by rw [World.exec_calls, h, List.append_assoc], ?_⟩
  intro c1 hc1 u hu
  rcases List.mem_append.mp hc1 with h1 | h1
  · exact hv c1 h1 u hu
  · rw [List.mem_singleton] at h1
    subst h1
    exact hc u hu

/-- C8. After any sequence of use-case calls, with any arguments, every record that was
handed to the repository's `Create` or `Update` during the sequence has a non-empty email
and a non-empty name; and over the SQL repository, whatever statements the driver fails, if
every row of `users` had a non-empty email and name before the sequence, every row has
them after it. -/
theorem persisted_records_nonempty {σ : Type} (uc : UserUseCase σ) (w : World σ)
    (rs : List Request) (faults : Nat → Option GoError) (d : World DB)
    (hd : ∀ u ∈ d.store.users, u.Email ≠ "" ∧ u.Name ≠ "") :
    (∃ new : List Call, (uc.serveAll w rs).calls = w.calls ++ new
        ∧ ∀ c ∈ new, ∀ u, (c = Call.Create u ∨ c = Call.Update u) →
          u.Email ≠ "" ∧ u.Name ≠ "")
      ∧ (∀ u ∈ ((NewUserUseCase (NewUserRepository faults)).serveAll d rs).store.users,
          u.Email ≠ "" ∧ u.Name ≠ "") := by
  constructor
  · refine serveAll_preserves uc
      (fun x => ∃ new : List Call, x.calls = w.calls ++ new
        ∧ ∀ c ∈ new, ∀ u, (c = Call.Create u ∨ c = Call.Update u) →
          u.Email ≠ "" ∧ u.Name ≠ "")
      ?_ ?_ ?_ ?_ ?_ ?_ ?_ rs w ⟨[], by simp, by simp⟩
    · intro x e hx
      exact trace_step w.calls x _ _ (by rintro u (h | h) <;> cases h) hx
    · intro x i hx
      exact trace_step w.calls x _ _ (by rintro u (h | h) <;> cases h) hx
    · intro x hx
      exact trace_step w.calls x _ _ (by rintro u (h | h) <;> cases h) hx
    · intro x u h1 h2 hx
      refine trace_step w.calls x _ _ ?_ hx
      rintro v (h | h)
      · cases h; exact ⟨h1, h2⟩
      · cases h
    · intro x u h1 h2 hx
      refine trace_step w.calls x _ _ ?_ hx
      rintro v (h | h)
      · cases h
      · cases h; exact ⟨h1, h2⟩
    · intro x i hx
      exact trace_step w.calls x _ _ (by rintro u (h | h) <;> cases h) hx
    · intro x t k hx
      exact hx
  · refine serveAll_preserves (NewUserUseCase (NewUserRepository faults))
      (fun x => ∀ u ∈ x.store.users, u.Email ≠ "" ∧ u.Name ≠ "")
      ?_ ?_ ?_ ?_ ?_ ?_ ?_ rs d hd
    · intro x e hx u hu
      rw [World.exec_store] at hu
      exact hx u (GetByEmail_users faults e x.store ▸ hu)
    · intro x i hx u hu
      rw [World.exec_store] at hu
      exact hx u (GetByID_users faults i x.store ▸ hu)
    · intro x hx u hu
      rw [World.exec_store] at hu
      exact hx u (GetAll_users faults x.store ▸ hu)
    · intro x v h1 h2 hx u hu
      rw [World.exec_store] at hu
      rcases Create_users faults v x.store u hu with h | h
      · exact hx u h
      · rw [h]; exact ⟨h1, h2⟩
    · intro x v h1 h2 hx u hu
      rw [World.exec_store] at hu
      rcases Update_users faults v x.store u hu with h | ⟨r, hr, h⟩
      · exact hx u h
      · rw [h]; exact ⟨(hx r hr).1, h2⟩
    · intro x i hx u hu
      rw [World.exec_store] at hu
      exact hx u (Delete_users faults i x.store u hu)
    · intro x t k hx
      exact hx

/-- C8 at a concrete input: a create with a name of white space only, an update to a name of
white space only, a valid update, a create and a delete leave one filled row. -/
theorem persisted_records_nonempty_witness :
    (∀ u ∈ World.withBob.store.users, u.Email ≠ "" ∧ u.Name ≠ "")
      ∧ (∀ u ∈ (sqlUseCase.serveAll World.withBob
            [Request.CreateUser "c@d.org" "   ", Request.UpdateUser bob.ID "  ",
              Request.UpdateUser bob.ID " Rob ", Request.CreateUser "e@f.org" "Eve",
              Request.DeleteUser bob.ID]).store.users,
          u.Email ≠ "" ∧ u.Name ≠ "") :=
  ⟨by decide,
    (persisted_records_nonempty sqlUseCase World.withBob
      [Request.CreateUser "c@d.org" "   ", Request.UpdateUser bob.ID "  ",
        Request.UpdateUser bob.ID " Rob ", Request.CreateUser "e@f.org" "Eve",
        Request.DeleteUser bob.ID] noFaults World.withBob (by decide)).2⟩

/-! ### Trimming, then the duplicate -/

/-- A `CreateUser` call whose lookup returns a user stops there with "already exists". -/
theorem CreateUser_found {σ : Type} (uc : UserUseCase σ) (w : World σ) (email name : String)
    (v : User) (h : (uc.userRepo.GetByEmail email w.store).1.1 = some v) :
    uc.CreateUser w email name
      = ((none, some (errors.New "user with this email already exists")),
          (w.exec (.GetByEmail email) (uc.userRepo.GetByEmail email)).2) := by
  simp [UserUseCase.CreateUser, h]

/-- Over a driver that never fails, the SQL repository returns by email what it stored. -/
theorem sql_returns_stored (v : User) (s : DB)
    (_h : (sqlUseCase.userRepo.Create v s).1 = none) :
    ∃ x, (sqlUseCase.userRepo.GetByEmail v.Email (sqlUseCase.userRepo.Create v s).2).1.1
      = some x := by
  have hs : (List.find? (fun u => decide (u.Email = v.Email)) (s.users ++ [v])).isSome
      = true := by
    rw [List.find?_isSome]
    exact ⟨v, by simp, by simp⟩
  exact Option.isSome_iff_exists.mp hs

/-- C10. When `CreateUser` succeeds, its repository calls are the lookup and one `Create`,
the record handed to `Create` has the given email and has as name the input name without
its leading and trailing white space, every other character kept in place; over a
repository that returns by email what `Create` stored, a following `CreateUser` with the
same email and any name fails with "user with this email already exists"; and
`CreateUser "a@b.com" "  Bob  "` on an empty table stores the name "Bob", after which
`CreateUser "a@b.com" "X"` fails with that error. -/
theorem createUser_trims_then_rejects_duplicate {σ : Type} (uc : UserUseCase σ)
    (w : World σ) (email name : String) (u : User)
    (h : (uc.CreateUser w email name).1 = (some u, none)) :
    (uc.CreateUser w email name).2.calls = w.calls ++ [Call.GetByEmail email, Call.Create u]
      ∧ u.Email = email
      ∧ u.Name = strings.TrimSpace name
      ∧ (∃ pre suf : List Char, name.data = pre ++ u.Name.data ++ suf
          ∧ (∀ c ∈ pre, unicode.IsSpace c = true) ∧ (∀ c ∈ suf, unicode.IsSpace c = true)
          ∧ (∀ c, u.Name.data.head? = some c → unicode.IsSpace c = false)
          ∧ (∀ c, u.Name.data.getLast? = some c → unicode.IsSpace c = false))
      ∧ ((∀ v s, (uc.userRepo.Create v s).1 = none →
            ∃ x, (uc.userRepo.GetByEmail v.Email (uc.userRepo.Create v s).2).1.1 = some x) →
          ∀ other : String, (uc.CreateUser (uc.CreateUser w email name).2 email other).1
            = (none, some (errors.New "user with this email already exists")))
      ∧ (sqlUseCase.CreateUser World.fresh "a@b.com" "  Bob  ").2.store.users = [bob]
      ∧ bob.Name = "Bob"
      ∧ (sqlUseCase.CreateUser (sqlUseCase.CreateUser World.fresh "a@b.com" "  Bob  ").2
          "a@b.com" "X").1
        = (none, some (errors.New "user with this email already exists")) := by
  obtain ⟨-, hu, -, hcreate, -, hcalls, hstore⟩ := CreateUser_ok uc w email name u (by rw [h])
  have hemail : u.Email = email := by rw [hu, NewUser_fst]
  have hname : u.Name = strings.TrimSpace name := by rw [hu, NewUser_fst]
  refine ⟨hcalls, hemail, hname, ?_, ?_, by decide, by decide, by decide⟩
  · rw [hname]; exact TrimSpace_spec name
  · intro hrepo other
    obtain ⟨x, hx⟩ := hrepo u _ hcreate
    rw [hemail, ← hstore] at hx
    rw [CreateUser_found uc _ email other x hx]

/-- C10 at a concrete input: the example of the specification. -/
theorem createUser_trims_then_rejects_duplicate_witness :
    (sqlUseCase.CreateUser World.fresh "a@b.com" "  Bob  ").1 = (some bob, none)
      ∧ bob.Name = strings.TrimSpace "  Bob  "
      ∧ ∀ other : String,
          (sqlUseCase.CreateUser (sqlUseCase.CreateUser World.fresh "a@b.com" "  Bob  ").2
            "a@b.com" other).1
          = (none, some (errors.New "user with this email already exists")) :=
  ⟨by decide,
    (createUser_trims_then_rejects_duplicate sqlUseCase World.fresh "a@b.com" "  Bob  " bob
      (by decide)).2.2.1,
    (createUser_trims_then_rejects_duplicate sqlUseCase World.fresh "a@b.com" "  Bob  " bob
      (by decide)).2.2.2.2.1 sql_returns_stored⟩

end CleanArch
